import Mathlib

/-!
Verification of the Bracket City puzzle engine (src/solve-puzzle.ts).

The engine's data model and operations are shallowly embedded here.
JavaScript strings are modelled as `List Char`; `Set<string>` is modelled as
an insertion-ordered duplicate-free `List (List Char)`; the
`Record<string, string>` answer key is modelled as an association list; JS
numbers used for scores are modelled as `Int`, and the counters (which are
always non-negative) as `Nat`.
-/

set_option maxHeartbeats 1600000

/-- The `Clue` record of the source.  The source field `end` is renamed to
`endPos` (`end` is a reserved word); `start`/`endPos` delimit the bracketed
span `[expression]` inside the document, `endPos` exclusive. -/
structure Clue where
  start : Nat
  endPos : Nat
  text : List Char
  expression : List Char
deriving DecidableEq

/-- The `Expression` record of the source (produced by
`findAvailableExpressions`). -/
structure Expression where
  expression : List Char
  startIndex : Nat
  endIndex : Nat
deriving DecidableEq

/-- The `GameState` record of the source. -/
structure GameState where
  displayState : List Char
  solvedExpressions : List (List Char)
  hintedExpressions : List (List Char)
  revealedExpressions : List (List Char)
  activeClues : List Clue
  totalClues : Nat
deriving DecidableEq

/-- The `PuzzleData` record of the source, restricted to the fields the
engine reads (`solutions` — the answer key — and `initialPuzzle`; the
metadata fields `completionText`, `puzzleDate`, `completionURL`,
`puzzleSolution` are never consulted by the modelled functions). -/
structure PuzzleData where
  solutions : List (List Char × List Char)
  initialPuzzle : List Char
deriving DecidableEq

/-- Record lookup `puzzleData.solutions[key]`: the JS record has unique keys;
an association-list lookup returns the entry or `none` (JS `undefined`). -/
def lookupKey : List (List Char × List Char) → List Char → Option (List Char)
  | [], _ => none
  | p :: ps, k => if p.1 = k then some p.2 else lookupKey ps k

/-- `new Set([...s, x])` on an insertion-ordered set: a no-op when `x` is
already a member, otherwise appends `x`. -/
def setInsert (s : List (List Char)) (x : List Char) : List (List Char) :=
  if x ∈ s then s else s ++ [x]

/-! ## The recursive bracket scanner `findActiveClues` -/

/-- The inner `while (i < str.length && bracketCount > 0)` loop of
`findClues`: starting with bracket count `n`, consume characters (updating
the count on `[` and `]`) until the count returns to `0` or the string ends.
Returns the consumed characters (including the final `]` when the count did
reach `0`) and the unconsumed remainder. -/
def takeSpan : List Char → Nat → List Char × List Char
  | [], _ => ([], [])
  | c :: cs, n =>
    let n' := if c = '[' then n + 1 else if c = ']' then n - 1 else n
    if n' = 0 then ([c], cs)
    else ((takeSpan cs n').1.cons c, (takeSpan cs n').2)

theorem takeSpan_append : ∀ (cs : List Char) (n : Nat),
    (takeSpan cs n).1 ++ (takeSpan cs n).2 = cs := by
  intro cs
  induction cs with
  | nil => intro n; simp [takeSpan]
  | cons c cs ih =>
    intro n
    simp only [takeSpan]
    split_ifs <;> simp [ih]

theorem takeSpan_length (cs : List Char) (n : Nat) :
    (takeSpan cs n).1.length + (takeSpan cs n).2.length = cs.length := by
  have h := congrArg List.length (takeSpan_append cs n)
  simpa using h

theorem takeSpan_fst_length_le (cs : List Char) (n : Nat) :
    (takeSpan cs n).1.length ≤ cs.length := by
  have := takeSpan_length cs n; omega

theorem takeSpan_snd_length_le (cs : List Char) (n : Nat) :
    (takeSpan cs n).2.length ≤ cs.length := by
  have := takeSpan_length cs n; omega

/-- The recursive scanner `findActiveClues`/`findClues` of the source.
`pos` is the absolute position (the source's `startOffset + i`) of the first
character of the argument.  On a `[` the inner loop (`takeSpan`) consumes the
span; `innerContent` is the consumed text without its last character
(`innerContent.slice(0, -1)`); a span without nested `[` is pushed as an
active clue, a span with nested brackets is recursed into at offset
`pos + 1`.  Note the source reports no error on unbalanced brackets: when
the string ends with a positive bracket count, the span simply ends at the
end of the string. -/
def findCluesAux : List Char → Nat → List Clue
  | [], _ => []
  | c :: cs, pos =>
    if c = '[' then
      (if '[' ∈ (takeSpan cs 1).1 then
        findCluesAux ((takeSpan cs 1).1.dropLast) (pos + 1)
       else
        [⟨pos, pos + 1 + (takeSpan cs 1).1.length, '[' :: (takeSpan cs 1).1,
          (takeSpan cs 1).1.dropLast⟩])
      ++ findCluesAux (takeSpan cs 1).2 (pos + 1 + (takeSpan cs 1).1.length)
    else findCluesAux cs (pos + 1)
termination_by s _ => s.length
decreasing_by
  · have h1 := takeSpan_fst_length_le cs 1
    have h2 : (takeSpan cs 1).1.dropLast.length ≤ (takeSpan cs 1).1.length := by
      simp [List.length_dropLast]
    simp only [List.length_cons]; omega
  · have := takeSpan_snd_length_le cs 1
    simp only [List.length_cons]; omega
  · simp only [List.length_cons]; omega

/-- `findCluesAux` again, structurally recursive on a fuel bound so that
concrete documents evaluate by kernel reduction (the well-founded recursion
of `findCluesAux` does not); any fuel dominating the string length gives the
same result (`findCluesFuel_eq`). -/
def findCluesFuel : Nat → List Char → Nat → List Clue
  | 0, _, _ => []
  | _ + 1, [], _ => []
  | fuel + 1, c :: cs, pos =>
    if c = '[' then
      (if '[' ∈ (takeSpan cs 1).1 then
        findCluesFuel fuel ((takeSpan cs 1).1.dropLast) (pos + 1)
       else
        [⟨pos, pos + 1 + (takeSpan cs 1).1.length, '[' :: (takeSpan cs 1).1,
          (takeSpan cs 1).1.dropLast⟩])
      ++ findCluesFuel fuel (takeSpan cs 1).2 (pos + 1 + (takeSpan cs 1).1.length)
    else findCluesFuel fuel cs (pos + 1)

theorem findCluesFuel_eq : ∀ (fuel : Nat) (s : List Char) (pos : Nat),
    s.length ≤ fuel → findCluesFuel fuel s pos = findCluesAux s pos := by
  intro fuel
  induction fuel with
  | zero =>
    intro s pos h
    have : s = [] := by
      cases s with
      | nil => rfl
      | cons c cs => simp at h
    subst this
    simp [findCluesFuel, findCluesAux]
  | succ fuel ih =>
    intro s pos h
    cases s with
    | nil => simp [findCluesFuel, findCluesAux]
    | cons c cs =>
      simp only [List.length_cons] at h
      have hcs : cs.length ≤ fuel := by omega
      have hinner : (takeSpan cs 1).1.dropLast.length ≤ fuel := by
        have h1 := takeSpan_fst_length_le cs 1
        have h2 : (takeSpan cs 1).1.dropLast.length ≤ (takeSpan cs 1).1.length := by
          simp [List.length_dropLast]
        omega
      have hrest : (takeSpan cs 1).2.length ≤ fuel := by
        have := takeSpan_snd_length_le cs 1
        omega
      rw [findCluesFuel, findCluesAux]
      split_ifs
      · rw [ih _ _ hinner, ih _ _ hrest]
      · rw [ih _ _ hrest]
      · rw [ih _ _ hcs]

/-- `findActiveClues(puzzleText)` of the source. -/
def findActiveClues (puzzleText : List Char) : List Clue :=
  findCluesFuel puzzleText.length puzzleText 0

theorem findActiveClues_eq (puzzleText : List Char) :
    findActiveClues puzzleText = findCluesAux puzzleText 0 :=
  findCluesFuel_eq _ _ _ le_rfl

/-! ## The regex scanner `findAvailableExpressions` -/

/-- Split a string into its maximal bracket-free prefix and the remainder
(which is empty or starts with `[` or `]`). -/
def leadFree : List Char → List Char × List Char
  | [] => ([], [])
  | c :: cs =>
    if c = '[' ∨ c = ']' then ([], c :: cs)
    else ((leadFree cs).1.cons c, (leadFree cs).2)

theorem leadFree_append : ∀ (l : List Char), (leadFree l).1 ++ (leadFree l).2 = l := by
  intro l
  induction l with
  | nil => simp [leadFree]
  | cons c cs ih =>
    simp only [leadFree]
    split
    · simp
    · simpa using ih

theorem leadFree_length (l : List Char) :
    (leadFree l).1.length + (leadFree l).2.length = l.length := by
  have h := congrArg List.length (leadFree_append l)
  simpa using h

theorem leadFree_fst_free : ∀ (l : List Char), ∀ c ∈ (leadFree l).1, c ≠ '[' ∧ c ≠ ']' := by
  intro l
  induction l with
  | nil => simp [leadFree]
  | cons c cs ih =>
    simp only [leadFree]
    split
    · simp
    · rename_i h
      push_neg at h
      intro x hx
      simp only [List.cons] at hx
      rcases List.mem_cons.mp hx with rfl | hx
      · exact h
      · exact ih x hx

/-- Operational model of the source's single-pass regex loop
`while ((match = regex.exec(gameState.displayState)) !== null)` with
`regex = /\[([^\[\]]+?)\]/g`: the engine finds the leftmost match at or
after the current position; a match at position `pos` requires a `[` whose
first following bracket character is a `]` at distance at least `2`
(the capture group needs one or more non-bracket characters); the scan
resumes after each match.  `matched` models the `matchedPositions` set
(the source's guard against re-pushing a start index). -/
def regexScanAux : List Char → Nat → List Nat → List Expression
  | [], _, _ => []
  | c :: cs, pos, matched =>
    if c = '[' then
      if (leadFree cs).2.head? = some ']' ∧ (leadFree cs).1 ≠ [] then
        if pos ∈ matched then
          regexScanAux (leadFree cs).2.tail (pos + (leadFree cs).1.length + 2) matched
        else
          ⟨(leadFree cs).1, pos, pos + (leadFree cs).1.length + 2⟩ ::
            regexScanAux (leadFree cs).2.tail (pos + (leadFree cs).1.length + 2)
              (pos :: matched)
      else regexScanAux cs (pos + 1) matched
    else regexScanAux cs (pos + 1) matched
termination_by s _ _ => s.length
decreasing_by
  all_goals simp only [List.length_cons]
  · have hl := leadFree_length cs
    have ht : (leadFree cs).2.tail.length ≤ (leadFree cs).2.length := by
      simp [List.length_tail]
    omega
  · have hl := leadFree_length cs
    have ht : (leadFree cs).2.tail.length ≤ (leadFree cs).2.length := by
      simp [List.length_tail]
    omega
  · omega
  · omega

/-- `regexScanAux` again, structurally recursive on a fuel bound so that
concrete documents evaluate by kernel reduction; any fuel dominating the
string length gives the same result (`regexScanFuel_eq`). -/
def regexScanFuel : Nat → List Char → Nat → List Nat → List Expression
  | 0, _, _, _ => []
  | _ + 1, [], _, _ => []
  | fuel + 1, c :: cs, pos, matched =>
    if c = '[' then
      if (leadFree cs).2.head? = some ']' ∧ (leadFree cs).1 ≠ [] then
        if pos ∈ matched then
          regexScanFuel fuel (leadFree cs).2.tail (pos + (leadFree cs).1.length + 2) matched
        else
          ⟨(leadFree cs).1, pos, pos + (leadFree cs).1.length + 2⟩ ::
            regexScanFuel fuel (leadFree cs).2.tail (pos + (leadFree cs).1.length + 2)
              (pos :: matched)
      else regexScanFuel fuel cs (pos + 1) matched
    else regexScanFuel fuel cs (pos + 1) matched

theorem regexScanFuel_eq : ∀ (fuel : Nat) (s : List Char) (pos : Nat) (matched : List Nat),
    s.length ≤ fuel → regexScanFuel fuel s pos matched = regexScanAux s pos matched := by
  intro fuel
  induction fuel with
  | zero =>
    intro s pos matched h
    have : s = [] := by
      cases s with
      | nil => rfl
      | cons c cs => simp at h
    subst this
    simp [regexScanFuel, regexScanAux]
  | succ fuel ih =>
    intro s pos matched h
    cases s with
    | nil => simp [regexScanFuel, regexScanAux]
    | cons c cs =>
      simp only [List.length_cons] at h
      have hcs : cs.length ≤ fuel := by omega
      rw [regexScanFuel, regexScanAux]
      have htail : (leadFree cs).2.tail.length ≤ fuel := by
        have hl := leadFree_length cs
        have ht : (leadFree cs).2.tail.length ≤ (leadFree cs).2.length := by
          simp [List.length_tail]
        omega
      by_cases hc : c = '['
      · simp only [if_pos hc]
        by_cases hb : (leadFree cs).2.head? = some ']' ∧ (leadFree cs).1 ≠ []
        · simp only [if_pos hb]
          by_cases hmem : pos ∈ matched
          · simp only [if_pos hmem]
            exact ih _ _ _ htail
          · simp only [if_neg hmem]
            rw [ih _ _ _ htail]
        · simp only [if_neg hb]
          exact ih _ _ _ hcs
      · simp only [if_neg hc]
        exact ih _ _ _ hcs

/-- `findAvailableExpressions(gameState)` of the source. -/
def findAvailableExpressions (gameState : GameState) : List Expression :=
  regexScanFuel gameState.displayState.length gameState.displayState 0 []

theorem findAvailableExpressions_eq (gameState : GameState) :
    findAvailableExpressions gameState = regexScanAux gameState.displayState 0 [] :=
  regexScanFuel_eq _ _ _ _ le_rfl

/-! ## Reference scanner used by the equivalence proofs

An innermost clue `[w]` is an occurrence of `[` whose next bracket character
is a `]`.  `innerScan` collects all of them in one online left-to-right pass,
carrying as state the position of the pending `[` together with the (reversed)
content accumulated since it.  Both source scanners are related to this one. -/

/-- One-character state update of the online scan: `[` opens a fresh pending
clue, `]` closes any pending clue, any other character extends the pending
content. -/
def stepSt (c : Char) (pos : Nat) (st : Option (Nat × List Char)) :
    Option (Nat × List Char) :=
  if c = '[' then some (pos, [])
  else if c = ']' then none
  else match st with
       | some (k, acc) => some (k, c :: acc)
       | none => none

/-- The clue emitted (if any) when the scan reads character `c` at position
`pos` in state `st`: a `]` closing a pending `[` at `k` emits the innermost
clue spanning positions `k` to `pos` inclusive. -/
def emitAt (c : Char) (pos : Nat) (st : Option (Nat × List Char)) : List Clue :=
  if c = ']' then
    match st with
    | some (k, acc) => [⟨k, pos + 1, '[' :: (acc.reverse ++ [']']), acc.reverse⟩]
    | none => []
  else []

/-- All innermost clues of the suffix starting at absolute position `pos`,
given the pending state `st`. -/
def innerScan : List Char → Nat → Option (Nat × List Char) → List Clue
  | [], _, _ => []
  | c :: cs, pos, st => emitAt c pos st ++ innerScan cs (pos + 1) (stepSt c pos st)

/-- The state of the online scan after reading the whole list. -/
def innerDelta : List Char → Nat → Option (Nat × List Char) → Option (Nat × List Char)
  | [], _, st => st
  | c :: cs, pos, st => innerDelta cs (pos + 1) (stepSt c pos st)

/-- Balanced bracket strings: the empty string, a non-bracket character
followed by a balanced string, or a fully bracketed balanced block followed
by a balanced string. -/
inductive Bal : List Char → Prop
  | nil : Bal []
  | chr {c : Char} {s : List Char} : c ≠ '[' → c ≠ ']' → Bal s → Bal (c :: s)
  | brk {s t : List Char} : Bal s → Bal t → Bal ('[' :: s ++ ']' :: t)

/-- A string with no bracket characters at all. -/
def BracketFree (s : List Char) : Prop := ∀ c ∈ s, c ≠ '[' ∧ c ≠ ']'

instance (s : List Char) : Decidable (BracketFree s) := by
  unfold BracketFree; infer_instance

/-- `true` when the document contains no empty bracket pair `[]`. -/
def noEmptyPair : List Char → Bool
  | [] => true
  | [_] => true
  | a :: b :: rest => !(a == '[' && b == ']') && noEmptyPair (b :: rest)

/-- Net bracket count (`[` minus `]`) of a string; balanced strings have net
count zero, so a positive count witnesses unbalancedness. -/
def brkNet : List Char → Int
  | [] => 0
  | c :: cs => (if c = '[' then 1 else if c = ']' then -1 else 0) + brkNet cs

/-! ## Guess normalisation and outcome messages -/

/-- The whitespace characters stripped by JS `String.prototype.trim` (the
ones that can occur in guesses and solutions here: space, tab, newline,
carriage return, vertical tab, form feed). -/
def isJsWhitespace (c : Char) : Bool :=
  c == ' ' || c == '\t' || c == '\n' || c == '\r' || c == '\x0b' || c == '\x0c'

/-- JS `s.trim()`: drop whitespace from both ends. -/
def trimBoth (l : List Char) : List Char :=
  ((l.dropWhile isJsWhitespace).reverse.dropWhile isJsWhitespace).reverse

/-- JS `s.toLowerCase().trim()` as used by `makeGuess` on both the guess and
the stored solution. -/
def normalizeGuess (l : List Char) : List Char :=
  trimBoth (l.map Char.toLower)

/-- Message `Correct! "expr" = "solution"`. -/
def correctMsg (e sol : List Char) : List Char :=
  "Correct! \"".toList ++ e ++ "\" = \"".toList ++ sol ++ "\"".toList

/-- Message `Incorrect guess "guess" for "expr".`. -/
def incorrectMsg (g e : List Char) : List Char :=
  "Incorrect guess \"".toList ++ g ++ "\" for \"".toList ++ e ++ "\".".toList

/-- Message `No active bracketed clue found for "expr".`. -/
def noActiveMsg (e : List Char) : List Char :=
  "No active bracketed clue found for \"".toList ++ e ++ "\".".toList

/-- Message `No solution found for clue "expr".`. -/
def noSolutionMsg (e : List Char) : List Char :=
  "No solution found for clue \"".toList ++ e ++ "\".".toList

/-- Message `Hint for "expr": The answer begins with "letter".`. -/
def hintMsg (e letter : List Char) : List Char :=
  "Hint for \"".toList ++ e ++ "\": The answer begins with \"".toList ++
    letter ++ "\".".toList

/-- Message `Revealed answer for "expr": "solution"`. -/
def revealMsg (e sol : List Char) : List Char :=
  "Revealed answer for \"".toList ++ e ++ "\": \"".toList ++ sol ++ "\"".toList

/-! ## The action engine: makeGuess, getHint, revealClue -/

/-- The condition of `makeGuess`'s matching loop for one available
expression: `solution && guess.toLowerCase().trim() ===
solution.toLowerCase().trim()` — the record must have an entry, JS truthiness
rejects the empty string, and the normalised texts must agree. -/
def matchPred (guess : List Char) (sols : List (List Char × List Char))
    (e : Expression) : Bool :=
  match lookupKey sols e.expression with
  | some sol => !sol.isEmpty && normalizeGuess guess == normalizeGuess sol
  | none => false

/-- The result record of `makeGuess`. -/
structure GuessResult where
  success : Bool
  message : List Char
  gameState : GameState
deriving DecidableEq

/-- `makeGuess(expression, guess, gameState, puzzleData)` of the source.
The `for (const expr of availableExpressions)` loop is the first
`availableExpressions` entry satisfying `matchPred` (`List.find?`); on a
match the clue's span in `displayState` is replaced by the stored solution
(`slice(0, startIndex) + solution + slice(endIndex)`), the matched
expression joins `solvedExpressions`, and active clues are recomputed.
Otherwise the source distinguishes an incorrect guess at a currently active
expression with a (truthy) answer entry from the no-active-clue fallthrough.
The inner `none` branch of the match is unreachable (the predicate demands
an entry) and mirrors the loop's skip. -/
def makeGuess (expression guess : List Char) (gameState : GameState)
    (puzzleData : PuzzleData) : GuessResult :=
  let availableExpressions := findAvailableExpressions gameState
  match availableExpressions.find? (matchPred guess puzzleData.solutions) with
  | some expr =>
    match lookupKey puzzleData.solutions expr.expression with
    | some solution =>
      let newDisplayState :=
        gameState.displayState.take expr.startIndex ++ solution ++
          gameState.displayState.drop expr.endIndex
      ⟨true, correctMsg expr.expression solution,
        { gameState with
          displayState := newDisplayState,
          solvedExpressions := setInsert gameState.solvedExpressions expr.expression,
          activeClues := findActiveClues newDisplayState }⟩
    | none => ⟨false, noActiveMsg expression, gameState⟩
  | none =>
    match availableExpressions.find? (fun e => e.expression == expression) with
    | some _ =>
      match lookupKey puzzleData.solutions expression with
      | some sol =>
        if !sol.isEmpty then ⟨false, incorrectMsg guess expression, gameState⟩
        else ⟨false, noActiveMsg expression, gameState⟩
      | none => ⟨false, noActiveMsg expression, gameState⟩
    | none => ⟨false, noActiveMsg expression, gameState⟩

/-- The result record of `getHint` (`hint` is an optional field). -/
structure HintResult where
  success : Bool
  hint : Option (List Char)
  message : List Char
  gameState : GameState
deriving DecidableEq

/-- `getHint(expression, gameState, puzzleData)` of the source: requires the
expression to be currently available and its answer entry to be truthy
(present and non-empty); does not touch `displayState`; the hint payload is
`solution.charAt(0)` (a one-character string, modelled as `take 1`); the
expression joins `hintedExpressions`. -/
def getHint (expression : List Char) (gameState : GameState)
    (puzzleData : PuzzleData) : HintResult :=
  match (findAvailableExpressions gameState).find?
      (fun e => e.expression == expression) with
  | none => ⟨false, none, noActiveMsg expression, gameState⟩
  | some _ =>
    match lookupKey puzzleData.solutions expression with
    | none => ⟨false, none, noSolutionMsg expression, gameState⟩
    | some solution =>
      if solution.isEmpty then ⟨false, none, noSolutionMsg expression, gameState⟩
      else
        ⟨true, some (solution.take 1), hintMsg expression (solution.take 1),
          { gameState with
            hintedExpressions := setInsert gameState.hintedExpressions expression }⟩

/-- The result record of `revealClue` (`solution` is an optional field). -/
structure RevealResult where
  success : Bool
  solution : Option (List Char)
  message : List Char
  gameState : GameState
deriving DecidableEq

/-- `revealClue(expression, gameState, puzzleData)` of the source: same
preconditions as `getHint` (the first available occurrence of `expression`
is the target); on success the target span in `displayState` is replaced by
the solution, the expression joins both `solvedExpressions` and
`revealedExpressions`, and active clues are recomputed. -/
def revealClue (expression : List Char) (gameState : GameState)
    (puzzleData : PuzzleData) : RevealResult :=
  match (findAvailableExpressions gameState).find?
      (fun e => e.expression == expression) with
  | none => ⟨false, none, noActiveMsg expression, gameState⟩
  | some targetExpression =>
    match lookupKey puzzleData.solutions expression with
    | none => ⟨false, none, noSolutionMsg expression, gameState⟩
    | some solution =>
      if solution.isEmpty then ⟨false, none, noSolutionMsg expression, gameState⟩
      else
        let newDisplayState :=
          gameState.displayState.take targetExpression.startIndex ++ solution ++
            gameState.displayState.drop targetExpression.endIndex
        ⟨true, some solution, revealMsg expression solution,
          { gameState with
            displayState := newDisplayState,
            solvedExpressions := setInsert gameState.solvedExpressions expression,
            revealedExpressions := setInsert gameState.revealedExpressions expression,
            activeClues := findActiveClues newDisplayState }⟩

/-- `sols.filter(p => p.key !== k)`: the answer key with the entry for `k`
removed (used to state that an empty entry behaves as a missing one). -/
def eraseKey (sols : List (List Char × List Char)) (k : List Char) :
    List (List Char × List Char) :=
  sols.filter (fun p => !(p.1 == k))

/-! ## The scoring engine -/

/-- The `ScoreConfig` record of the source; `rankThresholds` keeps the JS
object-literal insertion order (`Object.entries` enumerates it in that
order). -/
structure ScoreConfig where
  peekPenalty : Int
  megaPeekPenalty : Int
  wrongGuessPenalty : Int
  rankThresholds : List (String × Int)
deriving DecidableEq

/-- `getScoreConfig()` of the source. -/
def getScoreConfig : ScoreConfig :=
  { peekPenalty := 5
    megaPeekPenalty := 15
    wrongGuessPenalty := 2
    rankThresholds :=
      [("Tourist", 0), ("Commuter", 11), ("Resident", 21),
       ("Council Member", 31), ("Chief of Police", 51), ("Mayor", 68),
       ("Power Broker", 79), ("Kingmaker", 91), ("Puppet Master", 100)] }

/-- Stable insertion of one entry into a threshold-descending list, placing
it before the first strictly smaller threshold (models the stable JS
`sort((a, b) => b[1] - a[1])`). -/
def insertDescBy (x : String × Int) : List (String × Int) → List (String × Int)
  | [] => [x]
  | y :: ys => if x.2 > y.2 then x :: y :: ys else y :: insertDescBy x ys

/-- `ranks.sort((a, b) => b[1] - a[1])`: sort descending by threshold. -/
def sortDescByThreshold : List (String × Int) → List (String × Int)
  | [] => []
  | x :: xs => insertDescBy x (sortDescByThreshold xs)

/-- Stable insertion for the ascending sort. -/
def insertAscBy (x : String × Int) : List (String × Int) → List (String × Int)
  | [] => [x]
  | y :: ys => if x.2 < y.2 then x :: y :: ys else y :: insertAscBy x ys

/-- `ranks.sort((a, b) => a[1] - b[1])`: sort ascending by threshold. -/
def sortAscByThreshold : List (String × Int) → List (String × Int)
  | [] => []
  | x :: xs => insertAscBy x (sortAscByThreshold xs)

/-- The table part of `calculateRank`: the thresholds sorted descending,
then `ranks.find(([_, threshold]) => finalScore >= threshold)`, falling back
to `"Tourist"` when nothing matches. -/
def rankFromTable (finalScore : Int) : String :=
  match (sortDescByThreshold getScoreConfig.rankThresholds).find?
      (fun rt => decide (rt.2 ≤ finalScore)) with
  | some rt => rt.1
  | none => "Tourist"

/-- `calculateRank(finalScore, peekCount, megaPeekCount, wrongGuessCount)` of
the source: the Puppet Master branch fires on a perfect score with no
peeks/reveals/wrong guesses; all other cases fall through to the descending
threshold table. -/
def calculateRank (finalScore : Int) (peekCount megaPeekCount wrongGuessCount : Nat) :
    String :=
  if finalScore = 100 ∧ peekCount = 0 ∧ megaPeekCount = 0 ∧ wrongGuessCount = 0 then
    "Puppet Master"
  else rankFromTable finalScore

/-- The statistics record consumed by `calculateScore`. -/
structure StatsIn where
  guesses : Nat
  correctGuesses : Nat
  hints : Nat
  reveals : Nat
deriving DecidableEq

/-- The `ScoreDetails` record of the source. -/
structure ScoreDetails where
  baseScore : Int
  peekPenalty : Int
  megaPeekPenalty : Int
  wrongGuessPenalty : Int
  totalPenalty : Int
  finalScore : Int
  rank : String
  nextRankName : Option String
  pointsToNextRank : Int
deriving DecidableEq

/-- `calculateScore(gameState, stats)` of the source.  `Math.max(0, n)` on
the set sizes is the identity on `Nat`; `Math.max(0, guesses −
correctGuesses)` is truncated subtraction on `Nat`; `Math.ceil` on the
integral `pointsToNextRank` is the identity.  The JS `findIndex` returning
`-1` and the `ranks[currentRankIndex + 1]` lookup are modelled on `Int`
indices. -/
def calculateScore (gameState : GameState) (stats : StatsIn) : ScoreDetails :=
  let config := getScoreConfig
  let peekCount : Nat := max 0 gameState.hintedExpressions.length
  let megaPeekCount : Nat := max 0 gameState.revealedExpressions.length
  let wrongGuessCount : Nat := max 0 (stats.guesses - stats.correctGuesses)
  let peekPenalty : Int := peekCount * config.peekPenalty
  let megaPeekPenalty : Int := megaPeekCount * config.megaPeekPenalty
  let wrongGuessPenalty : Int := wrongGuessCount * config.wrongGuessPenalty
  let baseScore : Int := 100
  let totalPenalty := peekPenalty + megaPeekPenalty + wrongGuessPenalty
  let finalScore := min 100 (max 0 (baseScore - totalPenalty))
  let rank := calculateRank finalScore peekCount megaPeekCount wrongGuessCount
  let ranks := sortAscByThreshold config.rankThresholds
  let currentRankIndex : Int :=
    (ranks.findIdx? (fun r => r.1 == rank)).elim (-1) (fun i => (i : Int))
  let nextRank : Option (String × Int) :=
    if currentRankIndex < (ranks.length : Int) - 1 then
      ranks[(currentRankIndex + 1).toNat]?
    else none
  let pointsToNextRank : Int :=
    match nextRank with
    | some nr => max 0 (nr.2 - finalScore)
    | none => 0
  { baseScore := baseScore
    peekPenalty := peekPenalty
    megaPeekPenalty := megaPeekPenalty
    wrongGuessPenalty := wrongGuessPenalty
    totalPenalty := totalPenalty
    finalScore := finalScore
    rank := rank
    nextRankName := nextRank.map (fun nr => nr.1)
    pointsToNextRank := pointsToNextRank }

/-- The reported outcome of one solve run. -/
structure RunReport where
  score : Int
  rank : String
deriving DecidableEq

/-- The result-assembly tail of `solvePuzzleWithLLM` (source lines 1066-1103):
`completedPuzzle = findAvailableExpressions(gameState).length === 0`, the
score details come from `calculateScore`, and an incomplete puzzle forces the
reported score to `0` and the rank to `"Tourist"`. -/
def reportRun (gameState : GameState) (stats : StatsIn) : RunReport :=
  let completedPuzzle := (findAvailableExpressions gameState).length = 0
  let scoreDetails := calculateScore gameState stats
  let finalScore := if completedPuzzle then scoreDetails.finalScore else 0
  let rank := if completedPuzzle then scoreDetails.rank else "Tourist"
  ⟨finalScore, rank⟩

/-- Spelled out from the specification's rank rule: the tier with the
highest threshold in the fixed table not exceeding the final score
(`Tourist(0) … Puppet Master(100)`). -/
def rankByThresholdTable (finalScore : Int) : String :=
  if 100 ≤ finalScore then "Puppet Master"
  else if 91 ≤ finalScore then "Kingmaker"
  else if 79 ≤ finalScore then "Power Broker"
  else if 68 ≤ finalScore then "Mayor"
  else if 51 ≤ finalScore then "Chief of Police"
  else if 31 ≤ finalScore then "Council Member"
  else if 21 ≤ finalScore then "Resident"
  else if 11 ≤ finalScore then "Commuter"
  else "Tourist"

/-! ## Rank-table lemmas -/

theorem sortDesc_thresholds :
    sortDescByThreshold getScoreConfig.rankThresholds =
      [("Puppet Master", 100), ("Kingmaker", 91), ("Power Broker", 79),
       ("Mayor", 68), ("Chief of Police", 51), ("Council Member", 31),
       ("Resident", 21), ("Commuter", 11), ("Tourist", 0)] := by
  decide

/-- The descending-table lookup of the source agrees everywhere with the
specification's "highest threshold not exceeding the score" rule. -/
theorem rankFromTable_eq_spec (f : Int) :
    rankFromTable f = rankByThresholdTable f := by
  rw [rankFromTable, sortDesc_thresholds, rankByThresholdTable]
  by_cases h100 : 100 ≤ f
  · simp [List.find?, h100]
  by_cases h91 : 91 ≤ f
  · simp [List.find?, h100, h91]
  by_cases h79 : 79 ≤ f
  · simp [List.find?, h100, h91, h79]
  by_cases h68 : 68 ≤ f
  · simp [List.find?, h100, h91, h79, h68]
  by_cases h51 : 51 ≤ f
  · simp [List.find?, h100, h91, h79, h68, h51]
  by_cases h31 : 31 ≤ f
  · simp [List.find?, h100, h91, h79, h68, h51, h31]
  by_cases h21 : 21 ≤ f
  · simp [List.find?, h100, h91, h79, h68, h51, h31, h21]
  by_cases h11 : 11 ≤ f
  · simp [List.find?, h100, h91, h79, h68, h51, h31, h21, h11]
  by_cases h0 : 0 ≤ f
  · simp [List.find?, h100, h91, h79, h68, h51, h31, h21, h11, h0]
  · simp [List.find?, h100, h91, h79, h68, h51, h31, h21, h11, h0]

theorem rankByThresholdTable_ne_pm (f : Int) (h : f < 100) :
    rankByThresholdTable f ≠ "Puppet Master" := by
  rw [rankByThresholdTable]
  have : ¬ (100 ≤ f) := by omega
  simp only [this, if_false]
  split_ifs <;> decide

/-- The override and the table agree at 100, so `calculateRank` is the
spec's threshold rule everywhere. -/
theorem calculateRank_eq_table (f : Int) (p m w : Nat) :
    calculateRank f p m w = rankByThresholdTable f := by
  rw [calculateRank]
  split_ifs with hc
  · obtain ⟨h1, -⟩ := hc
    subst h1
    decide
  · exact rankFromTable_eq_spec f

theorem calculateScore_finalScore (gs : GameState) (st : StatsIn) :
    (calculateScore gs st).finalScore =
      min 100 (max 0 (100 - (5 * (gs.hintedExpressions.length : Int) +
        15 * (gs.revealedExpressions.length : Int) +
        2 * ((st.guesses - st.correctGuesses : Nat) : Int)))) := by
  simp only [calculateScore, getScoreConfig]
  omega

theorem calculateScore_rank (gs : GameState) (st : StatsIn) :
    (calculateScore gs st).rank =
      rankByThresholdTable (calculateScore gs st).finalScore := by
  simp only [calculateScore]
  exact calculateRank_eq_table _ _ _ _

/-! ## Claim C4 -/

/-- C4 counterexample: `calculateRank` at `finalScore = 100` with
`peekCount = 1` returns "Puppet Master" through the descending table (whose
first entry, threshold 100, matches), not the "Kingmaker" the claim
requires. -/
theorem C4_counterexample :
    calculateRank 100 1 0 0 = "Puppet Master" ∧
      calculateRank 100 1 0 0 ≠ "Kingmaker" := by
  decide

/-- C4 (amended): the rank is "Puppet Master" exactly when `finalScore ≥
100`, whatever the three counts are — the special branch covers the
no-penalty case and the table's own 100 threshold covers the rest; the rank
is "Kingmaker" exactly on scores in `[91, 100)`. -/
theorem C4_rank_puppet_master (f : Int) (p m w : Nat) :
    (calculateRank f p m w = "Puppet Master" ↔ 100 ≤ f) ∧
    (91 ≤ f → f < 100 → calculateRank f p m w = "Kingmaker") := by
  rw [calculateRank_eq_table]
  constructor
  · constructor
    · intro heq
      by_contra hlt
      exact rankByThresholdTable_ne_pm f (by omega) heq
    · intro h100
      rw [rankByThresholdTable, if_pos h100]
  · intro h91 h100
    rw [rankByThresholdTable]
    rw [if_neg (by omega), if_pos h91]

/-- Witness for C4's amended theorem at concrete scores. -/
theorem C4_rank_puppet_master_witness :
    calculateRank 95 3 0 0 = "Kingmaker" ∧
      (calculateRank 100 2 0 0 = "Puppet Master" ↔ 100 ≤ (100 : Int)) :=
  ⟨(C4_rank_puppet_master 95 3 0 0).2 (by decide) (by decide),
   (C4_rank_puppet_master 100 2 0 0).1⟩

/-! ## Claim C5 -/

/-- C5: the scoring engine's `finalScore` is
`clamp(100 − (5·peekCount + 15·megaPeekCount + 2·wrongGuessCount), 0, 100)`
(with `peekCount` the size of `hintedExpressions`, `megaPeekCount` the size
of `revealedExpressions` and `wrongGuessCount = max(0, guesses −
correctGuesses)`), and its rank is the tier with the highest threshold of
the fixed table not exceeding `finalScore` (the Puppet Master override
coincides with the table's own 100 row, so the equation holds without a
carve-out). -/
theorem C5_score_and_rank (gs : GameState) (st : StatsIn) :
    (calculateScore gs st).finalScore =
      min 100 (max 0 (100 - (5 * (gs.hintedExpressions.length : Int) +
        15 * (gs.revealedExpressions.length : Int) +
        2 * ((st.guesses - st.correctGuesses : Nat) : Int)))) ∧
    (calculateScore gs st).rank =
      rankByThresholdTable (calculateScore gs st).finalScore :=
  ⟨calculateScore_finalScore gs st, calculateScore_rank gs st⟩

/-! ## Set-insertion lemmas and example fixtures -/

theorem setInsert_mem_self (s : List (List Char)) (x : List Char) :
    x ∈ setInsert s x := by
  rw [setInsert]
  split_ifs with h
  · exact h
  · simp

theorem setInsert_idem (s : List (List Char)) (x : List Char) :
    setInsert (setInsert s x) x = setInsert s x := by
  conv_lhs => rw [setInsert]
  rw [if_pos (setInsert_mem_self s x)]

/-- Example state with two active clues (used by concrete witnesses). -/
def gsA : GameState := ⟨"[x] and [y]".toList, [], [], [], [], 2⟩

/-- Example answer key: `x` has a real solution, `y` an empty entry. -/
def pdA : PuzzleData := ⟨[("x".toList, "Paris".toList), ("y".toList, [])], []⟩

/-- Example state whose document has no brackets left. -/
def gsDone : GameState := ⟨"done".toList, ["x".toList], [], [], [], 1⟩

/-! ## Claim C6 -/

/-- C6: every failing outcome of Guess/Hint/Reveal returns the input state
unchanged in every field — the three operations are all-or-nothing. -/
theorem C6_atomic_failure (expression guess : List Char) (gs : GameState)
    (pd : PuzzleData) :
    ((makeGuess expression guess gs pd).success = false →
      (makeGuess expression guess gs pd).gameState = gs) ∧
    ((getHint expression gs pd).success = false →
      (getHint expression gs pd).gameState = gs) ∧
    ((revealClue expression gs pd).success = false →
      (revealClue expression gs pd).gameState = gs) := by
  refine ⟨?_, ?_, ?_⟩
  · simp only [makeGuess]
    split
    · split
      · intro h; simp at h
      · intro _; rfl
    · split
      · split
        · split
          · intro _; rfl
          · intro _; rfl
        · intro _; rfl
      · intro _; rfl
  · simp only [getHint]
    split
    · intro _; rfl
    · split
      · intro _; rfl
      · split
        · intro _; rfl
        · intro h; simp at h
  · simp only [revealClue]
    split
    · intro _; rfl
    · split
      · intro _; rfl
      · split
        · intro _; rfl
        · intro h; simp at h

/-- Witness for C6 at concrete failing calls. -/
theorem C6_atomic_failure_witness :
    (makeGuess "x".toList "wrong".toList gsA pdA).gameState = gsA ∧
    (getHint "zz".toList gsA pdA).gameState = gsA ∧
    (revealClue "zz".toList gsA pdA).gameState = gsA :=
  ⟨(C6_atomic_failure "x".toList "wrong".toList gsA pdA).1 (by decide),
   (C6_atomic_failure "zz".toList "guess".toList gsA pdA).2.1 (by decide),
   (C6_atomic_failure "zz".toList "guess".toList gsA pdA).2.2 (by decide)⟩

/-! ## Claim C9 -/

/-- C9: a run that ends with available clues remaining reports score 0 and
rank "Tourist" regardless of the computed score; a completed run reports
exactly the scoring engine's `finalScore` and rank. -/
theorem C9_completion_gate (gs : GameState) (st : StatsIn) :
    (findAvailableExpressions gs ≠ [] → reportRun gs st = ⟨0, "Tourist"⟩) ∧
    (findAvailableExpressions gs = [] →
      reportRun gs st =
        ⟨(calculateScore gs st).finalScore, (calculateScore gs st).rank⟩) := by
  constructor
  · intro h
    have hlen : ¬((findAvailableExpressions gs).length = 0) := by
      simpa [List.length_eq_zero] using h
    simp [reportRun, hlen]
  · intro h
    simp [reportRun, h]

/-- Witness for C9: an incomplete and a completed concrete run. -/
theorem C9_completion_gate_witness :
    reportRun gsA ⟨0, 0, 0, 0⟩ = ⟨0, "Tourist"⟩ ∧
    reportRun gsDone ⟨0, 0, 0, 0⟩ =
      ⟨(calculateScore gsDone ⟨0, 0, 0, 0⟩).finalScore,
       (calculateScore gsDone ⟨0, 0, 0, 0⟩).rank⟩ :=
  ⟨(C9_completion_gate gsA ⟨0, 0, 0, 0⟩).1 (by decide),
   (C9_completion_gate gsDone ⟨0, 0, 0, 0⟩).2 (by decide)⟩

/-! ## Claim C7 -/

theorem revealClue_success_iff (expression : List Char) (gs : GameState)
    (pd : PuzzleData) :
    (revealClue expression gs pd).success = true ↔
      ((∃ e ∈ findAvailableExpressions gs, e.expression = expression) ∧
       (∃ sol, lookupKey pd.solutions expression = some sol ∧ sol ≠ [])) := by
  simp only [revealClue]
  cases hf : (findAvailableExpressions gs).find? (fun e => e.expression == expression) with
  | none =>
    simp only []
    constructor
    · intro h; simp at h
    · rintro ⟨⟨e, he, heq⟩, -⟩
      have hne := List.find?_eq_none.mp hf e he
      simp [heq] at hne
  | some e =>
    have hmem := List.mem_of_find?_eq_some hf
    have hpe : e.expression = expression := by
      have := List.find?_some hf
      simpa using this
    cases hl : lookupKey pd.solutions expression with
    | none =>
      simp only []
      constructor
      · intro h; simp at h
      · rintro ⟨-, sol, hs, -⟩
        cases hs
    | some sol =>
      simp only []
      by_cases hemp : sol.isEmpty
      · rw [if_pos hemp]
        constructor
        · intro h; simp at h
        · rintro ⟨-, sol', hs', hne⟩
          injection hs' with h'
          subst h'
          rw [List.isEmpty_iff] at hemp
          exact absurd hemp hne
      · rw [if_neg hemp]
        constructor
        · intro _
          refine ⟨⟨e, hmem, hpe⟩, sol, rfl, ?_⟩
          intro hnil
          subst hnil
          simp at hemp
        · intro _; rfl

theorem revealClue_success_eq (expression : List Char) (gs : GameState)
    (pd : PuzzleData) (e : Expression)
    (hf : (findAvailableExpressions gs).find? (fun x => x.expression == expression) = some e)
    (sol : List Char) (hl : lookupKey pd.solutions expression = some sol)
    (hne : sol ≠ []) :
    revealClue expression gs pd =
      ⟨true, some sol, revealMsg expression sol,
        { gs with
          displayState := gs.displayState.take e.startIndex ++ sol ++
            gs.displayState.drop e.endIndex,
          solvedExpressions := setInsert gs.solvedExpressions expression,
          revealedExpressions := setInsert gs.revealedExpressions expression,
          activeClues := findActiveClues (gs.displayState.take e.startIndex ++ sol ++
            gs.displayState.drop e.endIndex) }⟩ := by
  have hemp : sol.isEmpty = false := by
    cases sol with
    | nil => exact absurd rfl hne
    | cons a l => rfl
  simp only [revealClue, hf, hl, hemp]
  rfl

theorem revealClue_not_active (expression : List Char) (gs : GameState)
    (pd : PuzzleData)
    (h : ¬ ∃ e ∈ findAvailableExpressions gs, e.expression = expression) :
    revealClue expression gs pd = ⟨false, none, noActiveMsg expression, gs⟩ := by
  have hf : (findAvailableExpressions gs).find? (fun x => x.expression == expression) = none := by
    rw [List.find?_eq_none]
    intro x hx
    simp only [beq_iff_eq]
    intro heq
    exact h ⟨x, hx, heq⟩
  simp only [revealClue, hf]

/-- C7 (amended): Reveal succeeds iff the expression names a currently
active clue and its Answer Key entry is present and non-empty (an empty
entry is rejected by the same JS-truthiness test that rejects a missing
one); on success it splices the solution over the first active occurrence
and inserts the expression into both `solvedExpressions` and
`revealedExpressions`; revealing the same expression again once it is no
longer active fails and leaves `revealedExpressions` unchanged. -/
theorem C7_reveal (gs : GameState) (pd : PuzzleData) (expression : List Char) :
    ((revealClue expression gs pd).success = true ↔
      ((∃ e ∈ findAvailableExpressions gs, e.expression = expression) ∧
       (∃ sol, lookupKey pd.solutions expression = some sol ∧ sol ≠ []))) ∧
    (∀ e, (findAvailableExpressions gs).find? (fun x => x.expression == expression) = some e →
      ∀ sol, lookupKey pd.solutions expression = some sol → sol ≠ [] →
        revealClue expression gs pd =
          ⟨true, some sol, revealMsg expression sol,
            { gs with
              displayState := gs.displayState.take e.startIndex ++ sol ++
                gs.displayState.drop e.endIndex,
              solvedExpressions := setInsert gs.solvedExpressions expression,
              revealedExpressions := setInsert gs.revealedExpressions expression,
              activeClues := findActiveClues (gs.displayState.take e.startIndex ++
                sol ++ gs.displayState.drop e.endIndex) }⟩) ∧
    ((revealClue expression gs pd).success = true →
      expression ∈ (revealClue expression gs pd).gameState.revealedExpressions) ∧
    ((¬ ∃ e ∈ findAvailableExpressions (revealClue expression gs pd).gameState,
        e.expression = expression) →
      (revealClue expression (revealClue expression gs pd).gameState pd).success = false ∧
      (revealClue expression (revealClue expression gs pd).gameState pd).gameState.revealedExpressions
        = (revealClue expression gs pd).gameState.revealedExpressions) := by
  refine ⟨revealClue_success_iff expression gs pd, ?_, ?_, ?_⟩
  · intro e hf sol hl hne
    exact revealClue_success_eq expression gs pd e hf sol hl hne
  · intro hs
    obtain ⟨⟨e0, hmem, heq⟩, sol, hl, hne⟩ :=
      (revealClue_success_iff expression gs pd).mp hs
    have hsome : ((findAvailableExpressions gs).find?
        (fun x => x.expression == expression)).isSome := by
      rw [List.find?_isSome]
      exact ⟨e0, hmem, by simp [heq]⟩
    obtain ⟨e, hf⟩ := Option.isSome_iff_exists.mp hsome
    rw [revealClue_success_eq expression gs pd e hf sol hl hne]
    exact setInsert_mem_self _ _
  · intro hna
    rw [revealClue_not_active _ _ _ hna]
    exact ⟨rfl, rfl⟩

/-- C7 counterexample (the claim as stated): `y` names an active clue and
has an Answer Key entry — the empty string — yet Reveal fails. -/
theorem C7_counterexample :
    (∃ e ∈ findAvailableExpressions gsA, e.expression = "y".toList) ∧
    lookupKey pdA.solutions "y".toList = some [] ∧
    (revealClue "y".toList gsA pdA).success = false := by
  decide

/-- Witness for C7 at a concrete reveal and a failing second reveal. -/
theorem C7_reveal_witness :
    (revealClue "x".toList gsA pdA).success = true ∧
    (revealClue "x".toList (revealClue "x".toList gsA pdA).gameState pdA).success = false ∧
    (revealClue "x".toList (revealClue "x".toList gsA pdA).gameState pdA).gameState.revealedExpressions
      = (revealClue "x".toList gsA pdA).gameState.revealedExpressions :=
  ⟨(C7_reveal gsA pdA "x".toList).1.mpr
      ⟨by decide, "Paris".toList, by decide, by decide⟩,
   ((C7_reveal gsA pdA "x".toList).2.2.2 (by decide)).1,
   ((C7_reveal gsA pdA "x".toList).2.2.2 (by decide)).2⟩

/-! ## Claim C8 -/

theorem getHint_success_eq (expression : List Char) (gs : GameState)
    (pd : PuzzleData) (e : Expression)
    (hf : (findAvailableExpressions gs).find? (fun x => x.expression == expression) = some e)
    (sol : List Char) (hl : lookupKey pd.solutions expression = some sol)
    (hne : sol ≠ []) :
    getHint expression gs pd =
      ⟨true, some (sol.take 1), hintMsg expression (sol.take 1),
        { gs with hintedExpressions := setInsert gs.hintedExpressions expression }⟩ := by
  have hemp : sol.isEmpty = false := by
    cases sol with
    | nil => exact absurd rfl hne
    | cons a l => rfl
  simp only [getHint, hf, hl, hemp]
  rfl

/-- C8 (amended): when the expression names a currently active clue and its
Answer Key entry is non-empty (the source rejects an empty entry exactly
like a missing one), Hint succeeds, returns `solution.charAt(0)` — the
one-character string holding the first character — and the new state differs
from the input only in `hintedExpressions`, which gains the expression by
set insertion; hinting the same expression again yields the same set. -/
theorem C8_hint (gs : GameState) (pd : PuzzleData) (expression sol : List Char)
    (hact : ∃ e ∈ findAvailableExpressions gs, e.expression = expression)
    (hl : lookupKey pd.solutions expression = some sol) (hne : sol ≠ []) :
    getHint expression gs pd =
      ⟨true, some (sol.take 1), hintMsg expression (sol.take 1),
        { gs with hintedExpressions := setInsert gs.hintedExpressions expression }⟩ ∧
    (getHint expression gs pd).hint = some [sol.headI] ∧
    (getHint expression (getHint expression gs pd).gameState pd).gameState.hintedExpressions
      = setInsert gs.hintedExpressions expression := by
  obtain ⟨e0, hmem, heq⟩ := hact
  have hsome : ((findAvailableExpressions gs).find?
      (fun x => x.expression == expression)).isSome := by
    rw [List.find?_isSome]
    exact ⟨e0, hmem, by simp [heq]⟩
  obtain ⟨e, hf⟩ := Option.isSome_iff_exists.mp hsome
  have h1 := getHint_success_eq expression gs pd e hf sol hl hne
  refine ⟨h1, ?_, ?_⟩
  · rw [h1]
    cases sol with
    | nil => exact absurd rfl hne
    | cons a l => rfl
  · rw [h1]
    have hf' : (findAvailableExpressions
        { gs with hintedExpressions := setInsert gs.hintedExpressions expression }).find?
        (fun x => x.expression == expression) = some e := hf
    rw [getHint_success_eq expression _ pd e hf' sol hl hne]
    exact setInsert_idem _ _

/-- C8 counterexample (the claim as stated): `y` names an active clue and
has an Answer Key entry — the empty string — yet Hint fails (and returns no
payload). -/
theorem C8_counterexample :
    (∃ e ∈ findAvailableExpressions gsA, e.expression = "y".toList) ∧
    lookupKey pdA.solutions "y".toList = some [] ∧
    (getHint "y".toList gsA pdA).success = false ∧
    (getHint "y".toList gsA pdA).hint = none := by
  decide

/-- Witness for C8 at a concrete hint call. -/
theorem C8_hint_witness :
    (getHint "x".toList gsA pdA).hint = some ['P'] ∧
    (getHint "x".toList (getHint "x".toList gsA pdA).gameState pdA).gameState.hintedExpressions
      = setInsert gsA.hintedExpressions "x".toList :=
  ⟨(C8_hint gsA pdA "x".toList "Paris".toList (by decide) (by decide) (by decide)).2.1,
   (C8_hint gsA pdA "x".toList "Paris".toList (by decide) (by decide) (by decide)).2.2⟩

/-! ## Claim C10 -/

theorem lookupKey_erase (sols : List (List Char × List Char)) (k x : List Char) :
    lookupKey (eraseKey sols k) x = if x = k then none else lookupKey sols x := by
  induction sols with
  | nil => simp [eraseKey, lookupKey]
  | cons p ps ih =>
    by_cases hpk : p.1 = k
    · have hbeq : (p.1 == k) = true := by
        simp [hpk]
      rw [show eraseKey (p :: ps) k = eraseKey ps k by
        simp [eraseKey, List.filter, hbeq]]
      rw [ih, lookupKey]
      by_cases hxk : x = k
      · simp [hxk]
      · rw [if_neg hxk, if_neg hxk, if_neg (by rw [hpk]; exact fun h => hxk h.symm)]
    · have hbeq : (p.1 == k) = false := by
        simp [hpk]
      rw [show eraseKey (p :: ps) k = p :: eraseKey ps k by
        simp [eraseKey, List.filter, hbeq]]
      rw [lookupKey, lookupKey, ih]
      by_cases hpx : p.1 = x
      · rw [if_pos hpx, if_pos hpx, if_neg (by rw [← hpx]; exact hpk)]
      · rw [if_neg hpx, if_neg hpx]

theorem matchPred_erase (guess : List Char) (sols : List (List Char × List Char))
    (expression : List Char) (hl : lookupKey sols expression = some [])
    (e : Expression) :
    matchPred guess (eraseKey sols expression) e = matchPred guess sols e := by
  rw [matchPred, matchPred, lookupKey_erase]
  by_cases hx : e.expression = expression
  · rw [if_pos hx, hx, hl]
    rfl
  · rw [if_neg hx]

theorem find?_congr_on {α : Type} (p q : α → Bool) :
    ∀ (l : List α), (∀ a ∈ l, p a = q a) → l.find? p = l.find? q := by
  intro l
  induction l with
  | nil => intro _; rfl
  | cons a l ih =>
    intro h
    simp only [List.find?]
    rw [h a (by simp)]
    cases hqa : q a with
    | true => rfl
    | false => exact ih (fun x hx => h x (by simp [hx]))

/-- C10: an expression whose Answer Key entry is the empty string behaves in
all three operations exactly as if the entry were missing (erasing the entry
does not change any result); the guess loop's predicate rejects it even for
an empty guess; Hint and Reveal fail with the "No solution found" outcome
and unchanged state when the expression is active; and Hint never returns an
empty-string payload. -/
theorem C10_empty_entry (gs : GameState) (pd : PuzzleData)
    (expression guess : List Char)
    (hl : lookupKey pd.solutions expression = some []) :
    makeGuess expression guess gs ⟨eraseKey pd.solutions expression, pd.initialPuzzle⟩
      = makeGuess expression guess gs pd ∧
    getHint expression gs ⟨eraseKey pd.solutions expression, pd.initialPuzzle⟩
      = getHint expression gs pd ∧
    revealClue expression gs ⟨eraseKey pd.solutions expression, pd.initialPuzzle⟩
      = revealClue expression gs pd ∧
    (∀ e : Expression, e.expression = expression →
      matchPred guess pd.solutions e = false) ∧
    ((∃ e ∈ findAvailableExpressions gs, e.expression = expression) →
      getHint expression gs pd = ⟨false, none, noSolutionMsg expression, gs⟩ ∧
      revealClue expression gs pd = ⟨false, none, noSolutionMsg expression, gs⟩) ∧
    (getHint expression gs pd).hint ≠ some [] := by
  have hfind : (findAvailableExpressions gs).find?
      (matchPred guess (eraseKey pd.solutions expression)) =
      (findAvailableExpressions gs).find? (matchPred guess pd.solutions) :=
    find?_congr_on _ _ _ (fun a _ => matchPred_erase guess pd.solutions expression hl a)
  refine ⟨?_, ?_, ?_, ?_, ?_, ?_⟩
  · simp only [makeGuess]
    rw [hfind]
    cases hf : (findAvailableExpressions gs).find? (matchPred guess pd.solutions) with
    | some e =>
      have hpe : matchPred guess pd.solutions e = true := List.find?_some hf
      have hne : e.expression ≠ expression := by
        intro heq
        rw [matchPred, heq, hl] at hpe
        simp at hpe
      simp only [lookupKey_erase, if_neg hne]
    | none =>
      cases hf2 : (findAvailableExpressions gs).find?
          (fun e => e.expression == expression) with
      | some t =>
        rw [lookupKey_erase, if_pos rfl, hl]
        rfl
      | none => rfl
  · simp only [getHint]
    cases hf2 : (findAvailableExpressions gs).find?
        (fun e => e.expression == expression) with
    | none => rfl
    | some t =>
      rw [lookupKey_erase, if_pos rfl, hl]
      rfl
  · simp only [revealClue]
    cases hf2 : (findAvailableExpressions gs).find?
        (fun e => e.expression == expression) with
    | none => rfl
    | some t =>
      rw [lookupKey_erase, if_pos rfl, hl]
      rfl
  · intro e heq
    rw [matchPred, heq, hl]
    rfl
  · rintro ⟨e0, hmem, heq⟩
    have hsome : ((findAvailableExpressions gs).find?
        (fun x => x.expression == expression)).isSome := by
      rw [List.find?_isSome]
      exact ⟨e0, hmem, by simp [heq]⟩
    obtain ⟨e, hf⟩ := Option.isSome_iff_exists.mp hsome
    constructor
    · simp only [getHint, hf, hl]
      rfl
    · simp only [revealClue, hf, hl]
      rfl
  · cases hf : (findAvailableExpressions gs).find?
        (fun e => e.expression == expression) with
    | none => simp [getHint, hf]
    | some t => simp [getHint, hf, hl]

/-- Witness for C10 at the concrete empty entry `y` of `pdA`. -/
theorem C10_empty_entry_witness :
    makeGuess "y".toList [] gsA ⟨eraseKey pdA.solutions "y".toList, pdA.initialPuzzle⟩
      = makeGuess "y".toList [] gsA pdA ∧
    getHint "y".toList gsA pdA = ⟨false, none, noSolutionMsg "y".toList, gsA⟩ :=
  ⟨(C10_empty_entry gsA pdA "y".toList [] (by decide)).1,
   ((C10_empty_entry gsA pdA "y".toList [] (by decide)).2.2.2.2.1 (by decide)).1⟩

/-! ## Claim C2 -/

theorem matchPred_iff (guess : List Char) (sols : List (List Char × List Char))
    (e : Expression) :
    matchPred guess sols e = true ↔
      ∃ sol, lookupKey sols e.expression = some sol ∧ sol ≠ [] ∧
        normalizeGuess guess = normalizeGuess sol := by
  rw [matchPred]
  cases h : lookupKey sols e.expression with
  | none => simp
  | some sol =>
    simp [List.isEmpty_iff]

theorem makeGuess_success_eq_isSome (expression guess : List Char)
    (gs : GameState) (pd : PuzzleData) :
    (makeGuess expression guess gs pd).success =
      ((findAvailableExpressions gs).find? (matchPred guess pd.solutions)).isSome := by
  simp only [makeGuess]
  cases hf : (findAvailableExpressions gs).find? (matchPred guess pd.solutions) with
  | some e =>
    have hpe : matchPred guess pd.solutions e = true := List.find?_some hf
    cases hls : lookupKey pd.solutions e.expression with
    | none =>
      rw [matchPred, hls] at hpe
      simp at hpe
    | some sol =>
      simp only [hls]
      rfl
  | none =>
    cases hf2 : (findAvailableExpressions gs).find?
        (fun e => e.expression == expression) with
    | none => rfl
    | some t =>
      cases hls : lookupKey pd.solutions expression with
      | none => rfl
      | some sol =>
        by_cases hemp : (!sol.isEmpty) = true
        · simp only [if_pos hemp]
          rfl
        · simp only [if_neg hemp]
          rfl

theorem makeGuess_success_eq (expression guess : List Char) (gs : GameState)
    (pd : PuzzleData) (e : Expression)
    (hf : (findAvailableExpressions gs).find? (matchPred guess pd.solutions) = some e)
    (sol : List Char) (hsol : lookupKey pd.solutions e.expression = some sol) :
    makeGuess expression guess gs pd =
      ⟨true, correctMsg e.expression sol,
        { gs with
          displayState := gs.displayState.take e.startIndex ++ sol ++
            gs.displayState.drop e.endIndex,
          solvedExpressions := setInsert gs.solvedExpressions e.expression,
          activeClues := findActiveClues (gs.displayState.take e.startIndex ++ sol ++
            gs.displayState.drop e.endIndex) }⟩ := by
  simp only [makeGuess, hf, hsol]

/-- C2 (amended): Guess succeeds iff some currently available clue has a
non-empty Answer Key entry whose solution, lowercased and trimmed, equals
the lowercased and trimmed guess (an empty entry is skipped by the loop's
JS-truthiness test even when the trimmed guess is also empty); the clue
resolved is the first match in document order (`List.find?` over the scan's
document-ordered list); its span is replaced by the stored solution text in
its stored casing, and its own expression — not the caller's claimed
`expression`, which the success path never consults — joins
`solvedExpressions`. -/
theorem C2_guess (gs : GameState) (pd : PuzzleData) (expression guess : List Char) :
    ((makeGuess expression guess gs pd).success = true ↔
      ∃ e ∈ findAvailableExpressions gs, ∃ sol,
        lookupKey pd.solutions e.expression = some sol ∧ sol ≠ [] ∧
        normalizeGuess guess = normalizeGuess sol) ∧
    (∀ e, (findAvailableExpressions gs).find? (matchPred guess pd.solutions) = some e →
      ∀ sol, lookupKey pd.solutions e.expression = some sol →
        makeGuess expression guess gs pd =
          ⟨true, correctMsg e.expression sol,
            { gs with
              displayState := gs.displayState.take e.startIndex ++ sol ++
                gs.displayState.drop e.endIndex,
              solvedExpressions := setInsert gs.solvedExpressions e.expression,
              activeClues := findActiveClues (gs.displayState.take e.startIndex ++
                sol ++ gs.displayState.drop e.endIndex) }⟩) := by
  constructor
  · rw [makeGuess_success_eq_isSome, List.find?_isSome]
    constructor
    · rintro ⟨e, he, hp⟩
      exact ⟨e, he, (matchPred_iff guess pd.solutions e).mp hp⟩
    · rintro ⟨e, he, sol, h1, h2, h3⟩
      exact ⟨e, he, (matchPred_iff guess pd.solutions e).mpr ⟨sol, h1, h2, h3⟩⟩
  · intro e hf sol hsol
    exact makeGuess_success_eq expression guess gs pd e hf sol hsol

/-- C2 counterexample (the claim as stated): the active clue `y` has an
Answer Key entry (the empty string) whose solution equals the empty guess
after lowercasing and trimming, yet Guess fails. -/
theorem C2_counterexample :
    (∃ e ∈ findAvailableExpressions gsA, ∃ sol,
      lookupKey pdA.solutions e.expression = some sol ∧
      normalizeGuess [] = normalizeGuess sol) ∧
    (makeGuess "y".toList [] gsA pdA).success = false := by
  decide

/-- Witness for C2: a differently-cased, whitespace-padded correct guess. -/
theorem C2_guess_witness :
    (makeGuess "x".toList "  PARIS ".toList gsA pdA).success = true ∧
    makeGuess "x".toList "  PARIS ".toList gsA pdA =
      ⟨true, correctMsg "x".toList "Paris".toList,
        { gsA with
          displayState := gsA.displayState.take 0 ++ "Paris".toList ++
            gsA.displayState.drop 3,
          solvedExpressions := setInsert gsA.solvedExpressions "x".toList,
          activeClues := findActiveClues (gsA.displayState.take 0 ++
            "Paris".toList ++ gsA.displayState.drop 3) }⟩ :=
  ⟨(C2_guess gsA pdA "x".toList "  PARIS ".toList).1.mpr
      ⟨⟨"x".toList, 0, 3⟩, by decide, "Paris".toList, by decide, by decide, by decide⟩,
   (C2_guess gsA pdA "x".toList "  PARIS ".toList).2 ⟨"x".toList, 0, 3⟩
      (by decide) "Paris".toList (by decide)⟩

/-! ## Balanced-input lemmas for the recursive scanner -/

theorem takeSpan_open (cs : List Char) (n : Nat) :
    takeSpan ('[' :: cs) n = ('[' :: (takeSpan cs (n + 1)).1, (takeSpan cs (n + 1)).2) := by
  simp [takeSpan]

theorem takeSpan_close_one (cs : List Char) : takeSpan (']' :: cs) 1 = ([']'], cs) := by
  simp [takeSpan]

theorem takeSpan_close_succ (cs : List Char) (n : Nat) (hn : 1 ≤ n) :
    takeSpan (']' :: cs) (n + 1) = (']' :: (takeSpan cs n).1, (takeSpan cs n).2) := by
  simp only [takeSpan, if_neg (by decide : ¬ (']' : Char) = '['), if_pos rfl, if_true]
  rw [if_neg (by omega : ¬ n + 1 - 1 = 0)]
  simp

theorem takeSpan_other (c : Char) (hc1 : c ≠ '[') (hc2 : c ≠ ']') (cs : List Char)
    (n : Nat) (hn : 1 ≤ n) :
    takeSpan (c :: cs) n = (c :: (takeSpan cs n).1, (takeSpan cs n).2) := by
  simp only [takeSpan, if_neg hc1, if_neg hc2]
  rw [if_neg (by omega : ¬ n = 0)]

theorem bal_of_bracketFree : ∀ (w : List Char), BracketFree w → Bal w := by
  intro w
  induction w with
  | nil => intro _; exact Bal.nil
  | cons c cs ih =>
    intro h
    have hc := h c (by simp)
    exact Bal.chr hc.1 hc.2 (ih (fun x hx => h x (by simp [hx])))

/-- Scanning a balanced block with a positive open-bracket count passes
straight through it: the count never returns to zero inside. -/
theorem takeSpan_bal {u : List Char} (hu : Bal u) : ∀ (n : Nat), 1 ≤ n →
    ∀ (rest : List Char),
    takeSpan (u ++ rest) n = (u ++ (takeSpan rest n).1, (takeSpan rest n).2) := by
  induction hu with
  | nil =>
    intro n hn rest
    simp
  | chr hc1 hc2 hs ih =>
    rename_i c s'
    intro n hn rest
    rw [List.cons_append, takeSpan_other c hc1 hc2 _ n hn, ih n hn rest]
    simp
  | brk hs ht ihs iht =>
    rename_i a b
    intro n hn rest
    rw [show ('[' :: a ++ ']' :: b) ++ rest = '[' :: (a ++ (']' :: (b ++ rest))) by simp]
    rw [takeSpan_open, ihs (n + 1) (by omega) (']' :: (b ++ rest))]
    rw [takeSpan_close_succ (b ++ rest) n hn, iht n hn rest]
    simp

theorem takeSpan_bracketFree (w : List Char) (hw : BracketFree w) (n : Nat)
    (hn : 1 ≤ n) : takeSpan w n = (w, []) := by
  have h := takeSpan_bal (bal_of_bracketFree w hw) n hn []
  simpa [takeSpan] using h

/-- Unfolding of the recursive scanner on one balanced bracketed block. -/
theorem findCluesAux_brk (s t : List Char) (hs : Bal s) (pos : Nat) :
    findCluesAux ('[' :: s ++ ']' :: t) pos =
      (if '[' ∈ s then findCluesAux s (pos + 1)
       else [⟨pos, pos + s.length + 2, '[' :: (s ++ [']']), s⟩])
      ++ findCluesAux t (pos + s.length + 2) := by
  rw [show ('[' : Char) :: s ++ ']' :: t = '[' :: (s ++ ']' :: t) by simp]
  rw [findCluesAux, if_pos rfl]
  have hts : takeSpan (s ++ ']' :: t) 1 = (s ++ [']'], t) := by
    rw [takeSpan_bal hs 1 le_rfl (']' :: t), takeSpan_close_one]
  rw [hts]
  have hmem : ('[' ∈ s ++ [']']) ↔ ('[' ∈ s) := by
    simp [List.mem_append]
  have hdrop : (s ++ [']']).dropLast = s := by
    simp
  have hlen : (s ++ [']']).length = s.length + 1 := by
    simp
  simp only [hdrop, hlen]
  by_cases hm : '[' ∈ s
  · rw [if_pos (hmem.mpr hm), if_pos hm]
    have : pos + 1 + (s.length + 1) = pos + s.length + 2 := by omega
    rw [this]
  · rw [if_neg (fun hx => hm (hmem.mp hx)), if_neg hm]
    have h1 : pos + 1 + (s.length + 1) = pos + s.length + 2 := by omega
    rw [h1]

/-- The recursive scanner distributes over a balanced prefix. -/
theorem findCluesAux_append {a : List Char} (ha : Bal a) : ∀ (rest : List Char) (pos : Nat),
    findCluesAux (a ++ rest) pos = findCluesAux a pos ++ findCluesAux rest (pos + a.length) := by
  induction ha with
  | nil =>
    intro rest pos
    simp [findCluesAux]
  | chr hc1 hc2 hs ih =>
    rename_i c s'
    intro rest pos
    rw [List.cons_append]
    rw [findCluesAux, if_neg hc1]
    rw [ih rest (pos + 1)]
    rw [show findCluesAux (c :: s') pos = findCluesAux s' (pos + 1) by
      rw [findCluesAux, if_neg hc1]]
    rw [show pos + 1 + s'.length = pos + (c :: s').length by simp; omega]
  | brk hs ht ihs iht =>
    rename_i a' b'
    intro rest pos
    rw [show ('[' :: a' ++ ']' :: b') ++ rest = '[' :: a' ++ ']' :: (b' ++ rest) by simp]
    rw [findCluesAux_brk a' (b' ++ rest) hs pos]
    rw [iht rest (pos + a'.length + 2)]
    rw [findCluesAux_brk a' b' hs pos]
    rw [show pos + a'.length + 2 + b'.length = pos + ('[' :: a' ++ ']' :: b').length by
      simp; omega]
    simp [List.append_assoc]

theorem brkNet_append : ∀ (a b : List Char), brkNet (a ++ b) = brkNet a + brkNet b := by
  intro a b
  induction a with
  | nil => simp [brkNet]
  | cons c cs ih =>
    rw [List.cons_append]
    show (if c = '[' then 1 else if c = ']' then -1 else 0) + brkNet (cs ++ b) =
      ((if c = '[' then 1 else if c = ']' then -1 else 0) + brkNet cs) + brkNet b
    rw [ih]
    omega

theorem brkNet_bal {s : List Char} (hs : Bal s) : brkNet s = 0 := by
  induction hs with
  | nil => rfl
  | chr hc1 hc2 hs ih =>
    rename_i c s'
    show (if c = '[' then 1 else if c = ']' then -1 else 0) + brkNet s' = 0
    rw [if_neg hc1, if_neg hc2, ih]
    decide
  | brk hs ht ihs iht =>
    rename_i a b
    rw [show ('[' : Char) :: a ++ ']' :: b = ('[' :: a) ++ (']' :: b) by simp]
    rw [brkNet_append]
    show ((1 : Int) + brkNet a) + ((if (']' : Char) = '[' then 1
      else if (']' : Char) = ']' then -1 else 0) + brkNet b) = 0
    rw [if_neg (by decide : ¬ (']' : Char) = '['), if_pos rfl, ihs, iht]
    omega

/-! ## Claim C1 -/

theorem brkNet_bracketFree (w : List Char) (hw : BracketFree w) : brkNet w = 0 :=
  brkNet_bal (bal_of_bracketFree w hw)

/-- C1 counterexample: the document `"[a"` has unbalanced brackets, yet
`findActiveClues` reports nothing and returns an ordinary (non-empty) clue
list, treating the unclosed span as ending at the end of the input. -/
theorem C1_counterexample :
    ¬ Bal "[a".toList ∧
      findActiveClues "[a".toList = [⟨0, 2, "[a".toList, []⟩] := by
  constructor
  · intro h
    have h1 := brkNet_bal h
    have h2 : brkNet "[a".toList = 1 := by decide
    rw [h2] at h1
    exact absurd h1 (by decide)
  · decide

/-- C1 (amended): the parser never reports a structural error.  On any
document made of a balanced part followed by a single unclosed `[` span —
an unbalanced document — `findActiveClues` silently continues: it returns
the balanced part's clues plus one ordinary clue whose span runs to the end
of the input and whose expression is the accumulated content with its last
character dropped (the source's unconditional `innerContent.slice(0, -1)`). -/
theorem C1_silent_on_unbalanced (s w : List Char) (hs : Bal s) (hw : BracketFree w) :
    ¬ Bal (s ++ '[' :: w) ∧
    findActiveClues (s ++ '[' :: w) =
      findActiveClues s ++
        [⟨s.length, s.length + 1 + w.length, '[' :: w, w.dropLast⟩] := by
  constructor
  · intro hbad
    have h1 := brkNet_bal hbad
    rw [brkNet_append] at h1
    rw [brkNet_bal hs] at h1
    have h2 : brkNet ('[' :: w) = 1 + brkNet w := by
      show (if '[' = '[' then (1 : Int) else if '[' = ']' then -1 else 0) + brkNet w
        = 1 + brkNet w
      rw [if_pos rfl]
    rw [h2, brkNet_bracketFree w hw] at h1
    exact absurd h1 (by decide)
  · rw [findActiveClues_eq, findActiveClues_eq]
    rw [findCluesAux_append hs]
    have hzero : (0 : Nat) + s.length = s.length := by omega
    rw [hzero]
    congr 1
    rw [findCluesAux, if_pos rfl]
    rw [takeSpan_bracketFree w hw 1 le_rfl]
    rw [if_neg (fun hm => (hw '[' hm).1 rfl)]
    have hnil : findCluesAux ([] : List Char) (s.length + 1 + w.length) = [] := by
      rw [findCluesAux]
    rw [hnil]
    simp [Nat.add_assoc]

/-- Witness for C1 at the concrete unbalanced document `"a[bc"`. -/
theorem C1_silent_on_unbalanced_witness :
    ¬ Bal "a[bc".toList ∧
    findActiveClues "a[bc".toList =
      findActiveClues "a".toList ++ [⟨1, 4, "[bc".toList, "b".toList⟩] := by
  have h := C1_silent_on_unbalanced "a".toList "bc".toList
    (Bal.chr (by decide) (by decide) Bal.nil) (by decide)
  exact ⟨h.1, h.2⟩

/-! ## Claim C3: the two scanners on balanced documents -/

theorem emitAt_open (pos : Nat) (st : Option (Nat × List Char)) :
    emitAt '[' pos st = [] := by
  simp only [emitAt, if_neg (by decide : ¬ ('[' : Char) = ']')]

theorem emitAt_st_none (c : Char) (pos : Nat) : emitAt c pos none = [] := by
  simp only [emitAt]
  split_ifs <;> rfl

theorem emitAt_other (c : Char) (hc : c ≠ ']') (pos : Nat)
    (st : Option (Nat × List Char)) : emitAt c pos st = [] := by
  simp only [emitAt, if_neg hc]

theorem stepSt_open (pos : Nat) (st : Option (Nat × List Char)) :
    stepSt '[' pos st = some (pos, []) := by
  simp only [stepSt, if_pos rfl, if_true]

theorem stepSt_close (pos : Nat) (st : Option (Nat × List Char)) :
    stepSt ']' pos st = none := by
  simp only [stepSt, if_neg (by decide : ¬ (']' : Char) = '['), if_pos rfl, if_true]

theorem stepSt_other (c : Char) (hc1 : c ≠ '[') (hc2 : c ≠ ']') (pos : Nat) :
    ∀ st, stepSt c pos st = (match st with
      | some (k, acc) => some (k, c :: acc)
      | none => none) := by
  intro st
  simp only [stepSt, if_neg hc1, if_neg hc2]

theorem stepSt_none_of_ne (c : Char) (hc : c ≠ '[') (pos : Nat) :
    stepSt c pos none = none := by
  simp only [stepSt, if_neg hc]
  split_ifs <;> rfl

theorem innerScan_append : ∀ (a b : List Char) (pos : Nat)
    (st : Option (Nat × List Char)),
    innerScan (a ++ b) pos st =
      innerScan a pos st ++ innerScan b (pos + a.length) (innerDelta a pos st) := by
  intro a
  induction a with
  | nil => intro b pos st; simp [innerScan, innerDelta]
  | cons c cs ih =>
    intro b pos st
    rw [List.cons_append, innerScan, innerScan, innerDelta]
    rw [ih b (pos + 1) (stepSt c pos st)]
    simp only [List.length_cons, List.append_assoc]
    have : pos + 1 + cs.length = pos + (cs.length + 1) := by omega
    rw [this]

theorem innerScan_free : ∀ (w : List Char), BracketFree w →
    ∀ (pos : Nat) (st : Option (Nat × List Char)), innerScan w pos st = [] := by
  intro w
  induction w with
  | nil => intro _ pos st; rfl
  | cons c cs ih =>
    intro hw pos st
    have hc := hw c (by simp)
    rw [innerScan, emitAt_other c hc.2 pos st]
    rw [ih (fun x hx => hw x (by simp [hx])) (pos + 1) _]
    rfl

theorem innerDelta_free_some : ∀ (w : List Char), BracketFree w →
    ∀ (pos k : Nat) (acc : List Char),
    innerDelta w pos (some (k, acc)) = some (k, w.reverse ++ acc) := by
  intro w
  induction w with
  | nil => intro _ pos k acc; simp [innerDelta]
  | cons c cs ih =>
    intro hw pos k acc
    have hc := hw c (by simp)
    rw [innerDelta, stepSt_other c hc.1 hc.2 pos]
    rw [ih (fun x hx => hw x (by simp [hx])) (pos + 1) k (c :: acc)]
    simp

theorem innerDelta_free_none : ∀ (w : List Char), BracketFree w →
    ∀ (pos : Nat), innerDelta w pos none = none := by
  intro w
  induction w with
  | nil => intro _ pos; rfl
  | cons c cs ih =>
    intro hw pos
    have hc := hw c (by simp)
    rw [innerDelta, stepSt_none_of_ne c hc.1 pos]
    exact ih (fun x hx => hw x (by simp [hx])) (pos + 1)

theorem innerDelta_append : ∀ (a b : List Char) (pos : Nat)
    (st : Option (Nat × List Char)),
    innerDelta (a ++ b) pos st = innerDelta b (pos + a.length) (innerDelta a pos st) := by
  intro a
  induction a with
  | nil => intro b pos st; simp [innerDelta]
  | cons c cs ih =>
    intro b pos st
    rw [List.cons_append, innerDelta, innerDelta]
    rw [ih b (pos + 1) (stepSt c pos st)]
    have : pos + 1 + cs.length = pos + (c :: cs).length := by simp; omega
    rw [this]

theorem bracketFree_of_bal_notMem {u : List Char} (hu : Bal u) (hm : '[' ∉ u) :
    BracketFree u := by
  induction hu with
  | nil => intro c hc; simp at hc
  | chr hc1 hc2 hs ih =>
    rename_i c s'
    intro x hx
    rcases List.mem_cons.mp hx with rfl | hx
    · exact ⟨hc1, hc2⟩
    · exact ih (fun hmem => hm (by simp [hmem])) x hx
  | brk hs ht ihs iht =>
    exact absurd (by simp) hm

/-- Emissions inside a balanced block do not depend on the incoming pending
state: the first bracket character of a balanced block is a `[`, which
overwrites it. -/
theorem innerScan_st_irrel {u : List Char} (hu : Bal u) : ∀ (pos : Nat)
    (st : Option (Nat × List Char)), innerScan u pos st = innerScan u pos none := by
  induction hu with
  | nil => intro pos st; rfl
  | chr hc1 hc2 hs ih =>
    rename_i c s'
    intro pos st
    rw [innerScan, innerScan]
    rw [emitAt_other c hc2 pos st, emitAt_other c hc2 pos none]
    rw [ih (pos + 1) (stepSt c pos st), ih (pos + 1) (stepSt c pos none)]
  | brk hs ht ihs iht =>
    rename_i a b
    intro pos st
    rw [show ('[' : Char) :: a ++ ']' :: b = '[' :: (a ++ ']' :: b) by simp]
    rw [innerScan, innerScan]
    rw [emitAt_open pos st, emitAt_open pos none]
    rw [stepSt_open pos st, stepSt_open pos none]

/-- After a balanced block containing at least one bracket, the pending
state is `none` (its last bracket is a `]`). -/
theorem innerDelta_none_of_mem {u : List Char} (hu : Bal u) (hm : '[' ∈ u) :
    ∀ (pos : Nat) (st : Option (Nat × List Char)), innerDelta u pos st = none := by
  induction hu with
  | nil => simp at hm
  | chr hc1 hc2 hs ih =>
    rename_i c s'
    intro pos st
    have hm' : '[' ∈ s' := by
      rcases List.mem_cons.mp hm with h | h
      · exact absurd h.symm hc1
      · exact h
    rw [innerDelta]
    exact ih hm' (pos + 1) _
  | brk hs ht ihs iht =>
    rename_i a b
    intro pos st
    rw [show ('[' : Char) :: a ++ ']' :: b = '[' :: (a ++ ']' :: b) by simp]
    rw [innerDelta, stepSt_open pos st]
    rw [innerDelta_append a (']' :: b) (pos + 1) (some (pos, []))]
    rw [innerDelta, stepSt_close]
    by_cases hmb : '[' ∈ b
    · exact iht hmb _ _
    · exact innerDelta_free_none b (bracketFree_of_bal_notMem ht hmb) _

/-- On balanced documents the recursive scanner agrees with the online
innermost-clue scanner. -/
theorem findCluesAux_eq_innerScan {s : List Char} (hs : Bal s) :
    ∀ (pos : Nat), findCluesAux s pos = innerScan s pos none := by
  induction hs with
  | nil =>
    intro pos
    rw [findCluesAux]
    rfl
  | chr hc1 hc2 hs ih =>
    rename_i c s'
    intro pos
    rw [findCluesAux, if_neg hc1]
    rw [innerScan, emitAt_other c hc2 pos none, stepSt_none_of_ne c hc1 pos]
    rw [ih (pos + 1)]
    simp
  | brk hs ht ihs iht =>
    rename_i u t
    intro pos
    rw [findCluesAux_brk u t hs pos]
    rw [show ('[' : Char) :: u ++ ']' :: t = '[' :: (u ++ ']' :: t) by simp]
    rw [innerScan, emitAt_open pos none, stepSt_open pos none]
    rw [innerScan_append u (']' :: t) (pos + 1) (some (pos, []))]
    by_cases hm : '[' ∈ u
    · rw [if_pos hm]
      rw [innerScan_st_irrel hs (pos + 1) (some (pos, []))]
      rw [innerDelta_none_of_mem hs hm (pos + 1) (some (pos, []))]
      rw [← ihs (pos + 1)]
      rw [innerScan, emitAt_st_none, stepSt_close]
      rw [show pos + 1 + u.length + 1 = pos + u.length + 2 by omega]
      rw [← iht (pos + u.length + 2)]
      simp
    · have hfree : BracketFree u := bracketFree_of_bal_notMem hs hm
      rw [if_neg hm]
      rw [innerScan_free u hfree (pos + 1) (some (pos, []))]
      rw [innerDelta_free_some u hfree (pos + 1) pos []]
      rw [innerScan, stepSt_close]
      simp only [emitAt, if_pos rfl, if_true, List.append_nil, List.reverse_reverse]
      rw [show pos + 1 + u.length + 1 = pos + u.length + 2 by omega]
      rw [← iht (pos + u.length + 2)]
      simp [show pos + 1 + u.length + 1 = pos + u.length + 2 by omega]

theorem regexScanAux_nil (pos : Nat) (matched : List Nat) :
    regexScanAux [] pos matched = [] := by
  rw [regexScanAux]

theorem regexScanAux_skip (c : Char) (hc : c ≠ '[') (cs : List Char) (pos : Nat)
    (matched : List Nat) :
    regexScanAux (c :: cs) pos matched = regexScanAux cs (pos + 1) matched := by
  rw [regexScanAux, if_neg hc]

theorem regexScanAux_open (cs : List Char) (pos : Nat) (matched : List Nat) :
    regexScanAux ('[' :: cs) pos matched =
      if (leadFree cs).2.head? = some ']' ∧ (leadFree cs).1 ≠ [] then
        if pos ∈ matched then
          regexScanAux (leadFree cs).2.tail (pos + (leadFree cs).1.length + 2) matched
        else
          ⟨(leadFree cs).1, pos, pos + (leadFree cs).1.length + 2⟩ ::
            regexScanAux (leadFree cs).2.tail (pos + (leadFree cs).1.length + 2)
              (pos :: matched)
      else regexScanAux cs (pos + 1) matched := by
  rw [regexScanAux, if_pos rfl]

theorem regexScanAux_passFree : ∀ (w : List Char), BracketFree w →
    ∀ (v : List Char) (pos : Nat) (matched : List Nat),
    regexScanAux (w ++ v) pos matched = regexScanAux v (pos + w.length) matched := by
  intro w
  induction w with
  | nil => intro _ v pos matched; simp
  | cons c cs ih =>
    intro hw v pos matched
    have hc := hw c (by simp)
    rw [List.cons_append, regexScanAux_skip c hc.1 _ pos matched]
    rw [ih (fun x hx => hw x (by simp [hx])) v (pos + 1) matched]
    rw [show pos + 1 + cs.length = pos + (c :: cs).length by simp; omega]

theorem regexScanAux_free (v : List Char) (hv : BracketFree v) (pos : Nat)
    (matched : List Nat) : regexScanAux v pos matched = [] := by
  have h := regexScanAux_passFree v hv [] pos matched
  rw [List.append_nil] at h
  rw [h, regexScanAux_nil]

theorem leadFree_snd_head : ∀ (l : List Char) (b : Char) (rest : List Char),
    (leadFree l).2 = b :: rest → b = '[' ∨ b = ']' := by
  intro l
  induction l with
  | nil =>
    intro b rest h
    simp [leadFree] at h
  | cons c cs ih =>
    intro b rest h
    simp only [leadFree] at h
    by_cases hc : c = '[' ∨ c = ']'
    · rw [if_pos hc] at h
      have : c = b := by
        have := congrArg List.head? h
        simpa using this
      rw [← this]
      exact hc
    · rw [if_neg hc] at h
      exact ih b rest h

theorem innerScan_open_st_irrel (rest : List Char) (q : Nat)
    (st : Option (Nat × List Char)) :
    innerScan ('[' :: rest) q st = innerScan ('[' :: rest) q none := by
  rw [innerScan, innerScan, emitAt_open, emitAt_open, stepSt_open, stepSt_open]

/-- Projection from the recursive scanner's clue record to the regex
scanner's expression record. -/
def clueToExpr (c : Clue) : Expression := ⟨c.expression, c.start, c.endPos⟩

/-- The regex scan produces exactly the innermost clues with non-empty
expressions, in document order (on any document, balanced or not). -/
theorem regexScanAux_eq_innerScan : ∀ (n : Nat) (s : List Char), s.length ≤ n →
    ∀ (pos : Nat) (matched : List Nat), (∀ m ∈ matched, m < pos) →
    regexScanAux s pos matched =
      ((innerScan s pos none).filter (fun c => !c.expression.isEmpty)).map clueToExpr := by
  intro n
  induction n with
  | zero =>
    intro s h pos matched hm
    have hnil : s = [] := by
      cases s with
      | nil => rfl
      | cons c cs => simp at h
    subst hnil
    simp [regexScanAux_nil, innerScan]
  | succ n ih =>
    intro s h pos matched hm
    cases s with
    | nil => simp [regexScanAux_nil, innerScan]
    | cons c cs =>
      simp only [List.length_cons] at h
      by_cases hc : c = '['
      · subst hc
        have hsplit := leadFree_append cs
        have hwfree : BracketFree (leadFree cs).1 := leadFree_fst_free cs
        cases hz : (leadFree cs).2 with
        | nil =>
          have hcs : cs = (leadFree cs).1 := by
            conv_lhs => rw [← hsplit]
            rw [hz, List.append_nil]
          have hcsfree : BracketFree cs := by rw [hcs]; exact hwfree
          rw [regexScanAux_open, hz]
          rw [if_neg (by simp)]
          rw [regexScanAux_free cs hcsfree (pos + 1) matched]
          rw [innerScan, emitAt_open, stepSt_open]
          rw [innerScan_free cs hcsfree (pos + 1) _]
          rfl
        | cons b rest =>
          have hb := leadFree_snd_head cs b rest hz
          have hcs : cs = (leadFree cs).1 ++ b :: rest := by
            conv_lhs => rw [← hsplit]
            rw [hz]
          have hlen : cs.length = (leadFree cs).1.length + rest.length + 1 := by
            conv_lhs => rw [hcs]
            simp
            omega
          rcases hb with hbOpen | hbClose
          · subst hbOpen
            rw [regexScanAux_open, hz]
            rw [if_neg (by simp)]
            have hInner : innerScan ('[' :: cs) pos none =
                innerScan ('[' :: rest) (pos + 1 + (leadFree cs).1.length) none := by
              conv_lhs => rw [hcs]
              rw [show ('[' : Char) :: ((leadFree cs).1 ++ '[' :: rest) =
                '[' :: ((leadFree cs).1 ++ '[' :: rest) from rfl]
              rw [innerScan, emitAt_open, stepSt_open]
              rw [innerScan_append (leadFree cs).1 ('[' :: rest) (pos + 1) (some (pos, []))]
              rw [innerScan_free (leadFree cs).1 hwfree (pos + 1) _]
              rw [innerDelta_free_some (leadFree cs).1 hwfree (pos + 1) pos []]
              rw [innerScan_open_st_irrel rest (pos + 1 + (leadFree cs).1.length) _]
              simp
            rw [hInner]
            rw [show regexScanAux cs (pos + 1) matched =
                regexScanAux ('[' :: rest) (pos + 1 + (leadFree cs).1.length) matched by
              conv_lhs => rw [hcs]
              rw [regexScanAux_passFree (leadFree cs).1 hwfree ('[' :: rest) (pos + 1) matched]]
            exact ih ('[' :: rest) (by simp only [List.length_cons]; omega)
              (pos + 1 + (leadFree cs).1.length) matched
              (fun m hm' => by have := hm m hm'; omega)
          · subst hbClose
            by_cases hwnil : (leadFree cs).1 = []
            · rw [regexScanAux_open, hz]
              rw [if_neg (by simp [hwnil])]
              have hcs' : cs = ']' :: rest := by
                rw [hcs, hwnil, List.nil_append]
              have hInner : innerScan ('[' :: cs) pos none =
                  ⟨pos, pos + 2, ['[', ']'], []⟩ :: innerScan rest (pos + 2) none := by
                rw [hcs']
                rw [innerScan, emitAt_open, stepSt_open]
                rw [innerScan, stepSt_close]
                simp only [emitAt, if_pos rfl, if_true]
                simp [show pos + 1 + 1 = pos + 2 by omega]
              rw [hInner]
              rw [hcs', regexScanAux_skip ']' (by decide) rest (pos + 1) matched]
              rw [show pos + 1 + 1 = pos + 2 by omega]
              rw [ih rest (by omega)
                (pos + 2) matched (fun m hm' => by have := hm m hm'; omega)]
              simp
            · rw [regexScanAux_open, hz]
              rw [if_pos ⟨by simp, hwnil⟩]
              rw [if_neg (fun hmem => absurd (hm pos hmem) (lt_irrefl pos))]
              simp only [List.tail_cons]
              have hInner : innerScan ('[' :: cs) pos none =
                  ⟨pos, pos + (leadFree cs).1.length + 2,
                    '[' :: ((leadFree cs).1 ++ [']']), (leadFree cs).1⟩ ::
                    innerScan rest (pos + (leadFree cs).1.length + 2) none := by
                conv_lhs => rw [hcs]
                rw [innerScan, emitAt_open, stepSt_open]
                rw [innerScan_append (leadFree cs).1 (']' :: rest) (pos + 1) (some (pos, []))]
                rw [innerScan_free (leadFree cs).1 hwfree (pos + 1) _]
                rw [innerDelta_free_some (leadFree cs).1 hwfree (pos + 1) pos []]
                rw [innerScan, stepSt_close]
                simp only [emitAt, if_pos rfl, if_true, List.append_nil,
                  List.reverse_reverse]
                simp [show pos + 1 + (leadFree cs).1.length + 1 =
                  pos + (leadFree cs).1.length + 2 by omega]
              rw [hInner]
              rw [ih rest (by omega)
                (pos + (leadFree cs).1.length + 2) (pos :: matched)
                (fun m hm' => by
                  rcases List.mem_cons.mp hm' with rfl | hmem
                  · omega
                  · have := hm m hmem; omega)]
              have hkeep : (!((leadFree cs).1.isEmpty)) = true := by
                cases hlf : (leadFree cs).1 with
                | nil => exact absurd hlf hwnil
                | cons a l => rfl
              simp [List.filter, hkeep, clueToExpr]
      · rw [regexScanAux_skip c hc cs pos matched]
        rw [innerScan, emitAt_st_none, stepSt_none_of_ne c hc pos]
        rw [ih cs (by omega) (pos + 1) matched (fun m hm' => by have := hm m hm'; omega)]
        simp

/-- In a document without the substring `[]`, every clue the online scanner
emits has a non-empty expression. -/
theorem innerScan_ne_empty : ∀ (s : List Char), noEmptyPair s = true →
    ∀ (pos : Nat) (st : Option (Nat × List Char)),
    (∀ k, st = some (k, []) → s.head? ≠ some ']') →
    ∀ cl ∈ innerScan s pos st, cl.expression ≠ [] := by
  intro s
  induction s with
  | nil =>
    intro _ pos st _ cl hcl
    simp [innerScan] at hcl
  | cons c cs ih =>
    intro hne pos st hinv cl hcl
    rw [innerScan] at hcl
    rcases List.mem_append.mp hcl with hemit | hrec
    · by_cases hc : c = ']'
      · subst hc
        cases st with
        | none =>
          rw [emitAt_st_none] at hemit
          simp at hemit
        | some p =>
          obtain ⟨k, acc⟩ := p
          simp only [emitAt, if_pos rfl, if_true] at hemit
          cases acc with
          | nil => exact absurd rfl (hinv k rfl)
          | cons a l =>
            have hcl' : cl = ⟨k, pos + 1, '[' :: ((a :: l).reverse ++ [']']),
                (a :: l).reverse⟩ := by
              simpa using hemit
            rw [hcl']
            simp
      · rw [emitAt_other c hc pos st] at hemit
        simp at hemit
    · have hne' : noEmptyPair cs = true := by
        cases cs with
        | nil => rfl
        | cons b l =>
          rw [noEmptyPair] at hne
          simp only [Bool.and_eq_true] at hne
          exact hne.2
      refine ih hne' (pos + 1) (stepSt c pos st) ?_ cl hrec
      intro k hk
      by_cases hc1 : c = '['
      · subst hc1
        intro hhead
        cases cs with
        | nil => simp at hhead
        | cons b l =>
          have hb : b = ']' := by simpa using hhead
          subst hb
          rw [noEmptyPair] at hne
          simp at hne
      · by_cases hc2 : c = ']'
        · subst hc2
          rw [stepSt_close] at hk
          cases hk
        · rw [stepSt_other c hc1 hc2 pos st] at hk
          cases st with
          | none => simp at hk
          | some p =>
            obtain ⟨k', acc⟩ := p
            simp at hk

theorem filter_innerScan_noEmpty (s : List Char) (hne : noEmptyPair s = true) :
    (innerScan s 0 none).filter (fun c => !c.expression.isEmpty) =
      innerScan s 0 none := by
  apply List.filter_eq_self.mpr
  intro cl hcl
  have hx := innerScan_ne_empty s hne 0 none
    (fun k hk => by exact absurd hk (by simp)) cl hcl
  cases hexp : cl.expression with
  | nil => exact absurd hexp hx
  | cons a l => simp [hexp]

/-- C3 (amended): on every document with balanced brackets and no empty
bracket pair `[]`, the recursive scanner and the single-pass regex scanner
produce exactly the same active clues — same expressions, same start/end
windows, same document order.  (An empty pair is the one divergence: the
recursive scanner emits it as a clue with the empty expression while the
regex, whose capture group needs at least one character, skips it.) -/
theorem C3_scanners_agree (gs : GameState) (hb : Bal gs.displayState)
    (hne : noEmptyPair gs.displayState = true) :
    (findActiveClues gs.displayState).map
        (fun c => (c.expression, c.start, c.endPos)) =
      (findAvailableExpressions gs).map
        (fun e => (e.expression, e.startIndex, e.endIndex)) := by
  rw [findActiveClues_eq, findAvailableExpressions_eq]
  rw [regexScanAux_eq_innerScan gs.displayState.length gs.displayState le_rfl 0 []
    (by simp)]
  rw [findCluesAux_eq_innerScan hb 0]
  rw [filter_innerScan_noEmpty gs.displayState hne]
  rw [List.map_map]
  rfl

/-- C3 counterexample (the claim as stated): the document `"[]"` is
balanced, yet the recursive scanner reports one clue (with the empty
expression) while the regex scanner reports none. -/
theorem C3_counterexample :
    Bal ['[', ']'] ∧
    (findActiveClues ['[', ']']).map (fun c => (c.expression, c.start, c.endPos)) ≠
      (findAvailableExpressions ⟨['[', ']'], [], [], [], [], 0⟩).map
        (fun e => (e.expression, e.startIndex, e.endIndex)) := by
  constructor
  · exact @Bal.brk [] [] Bal.nil Bal.nil
  · decide

/-- Witness for C3 on a concrete nested document. -/
theorem C3_scanners_agree_witness :
    (findActiveClues "[a[bc]d]e".toList).map
        (fun c => (c.expression, c.start, c.endPos)) =
      (findAvailableExpressions ⟨"[a[bc]d]e".toList, [], [], [], [], 0⟩).map
        (fun e => (e.expression, e.startIndex, e.endIndex)) :=
  C3_scanners_agree ⟨"[a[bc]d]e".toList, [], [], [], [], 0⟩
    (@Bal.brk "a[bc]d".toList "e".toList
      (Bal.chr (by decide) (by decide)
        (@Bal.brk "bc".toList "d".toList
          (bal_of_bracketFree _ (by decide))
          (bal_of_bracketFree _ (by decide))))
      (bal_of_bracketFree _ (by decide)))
    (by decide)
